import Mathlib

/-!
Verification model of the tile-map-service scraper.

The definitions below are a shallow embedding of the backend sources:

* `src/backend/src/tileScraper.js` — the refresh scheduler (`TMSScraper`):
  `loadTilesIntoQueue`, the per-tile body of `scrapePbfTiles`, and its
  Draining loop;
* `src/backend/src/scraper.js` — the older sqlite `TMSScraper`, whose
  `loadTilesIntoQueue` uses a zoom-range/zoom-subset condition;
* the `PriorityQueue` and `TileServer` classes;
* the `TileGenerator` (discovery engine);
* `Database.saveStats` of `src/backend/src/database.js`;
* the stop route of `src/backend/api.js`.

Conventions: opaque byte payloads are lists of naturals; sha256 digests are
abstracted to an arbitrary hash function into naturals (the digest itself is an
external crypto primitive); timestamps are rationals measured in hours since
the epoch; the SQL tables are association lists keyed by the coordinate
triple.  The JS array sort used by `PriorityQueue.enqueue` is stable, so it is
embedded as a stable sort (Mathlib's insertion sort computes exactly the
stable sort of the comparator).
-/

namespace TMS

/-- Integer tile coordinates `(x, y, z)` at zoom level `z`. -/
structure Coord where
  x : Nat
  y : Nat
  z : Nat
deriving DecidableEq

/-- Opaque binary tile payload (the `data` columns). -/
abbrev Bytes := List Nat

/-- A row of the `tiles` table (a TileRecord): coordinates plus the optional
parent reference `(parent_x, parent_y, parent_z)` (all three null at the
minimum zoom level). -/
structure TileRec where
  x : Nat
  y : Nat
  z : Nat
  parent : Option (Nat × Nat × Nat)
deriving DecidableEq

/-- A row of `pbf_tiles` (CurrentTileContent): `data`, `hash`,
`last_modified`.  Every insert supplies all three fields
(`last_modified` defaults to `CURRENT_TIMESTAMP`), so none is optional. -/
structure PbfRow where
  data : Bytes
  hash : Nat
  lastModified : ℚ
deriving DecidableEq

/-- The current-content table keyed by `(x, y, z)` (primary key). -/
abbrev PbfTable := List (Coord × PbfRow)

/-- A row of the append-only `pbf_tiles_history` table: `(x, y, z, data,
hash)`; the synthetic id is the list position. -/
abbrev HistoryRow := Coord × Bytes × Nat

/-- Row lookup in `pbf_tiles`: `SELECT ... WHERE x=$1 AND y=$2 AND z=$3`. -/
def lookupPbf (pbf : PbfTable) (c : Coord) : Option PbfRow :=
  (pbf.find? (fun e => e.1 == c)).map (·.2)

/-- Upsert into `pbf_tiles`: `INSERT ... ON CONFLICT (x, y, z) DO UPDATE SET
data = EXCLUDED.data, hash = EXCLUDED.hash, last_modified =
CURRENT_TIMESTAMP`. -/
def upsertPbf (pbf : PbfTable) (c : Coord) (row : PbfRow) : PbfTable :=
  if pbf.any (fun e => e.1 == c) then
    pbf.map (fun e => if e.1 == c then (c, row) else e)
  else
    pbf ++ [(c, row)]

/-- The mutable store the refresh scheduler writes through: current tile
content and the content history log. -/
structure ScrapeDb where
  pbf : PbfTable
  history : List HistoryRow
deriving DecidableEq

/-- The scheduler settings of `TMSScraper` (`requestDelay` drives only the
real-time sleep between fetches and has no effect on the store). -/
structure ScraperSettings where
  batchSize : Nat
  minQueueSize : Nat
  maxTilesToProcess : Nat
  updateInterval : ℚ
  minZoom : Nat
  maxZoom : Nat
  zoomLevels : List Nat
  requestDelay : ℚ

/-- The compiled-in defaults of `tileScraper.js`. -/
def defaultSettings : ScraperSettings :=
  { batchSize := 1000
    minQueueSize := 100
    maxTilesToProcess := 1000
    updateInterval := 24
    minZoom := 10
    maxZoom := 16
    zoomLevels := []
    requestDelay := 500 }

/-- A work item as produced by `loadTilesIntoQueue`: tile coordinates joined
(LEFT JOIN) with the tile's `last_modified` and `hash` from `pbf_tiles`, both
null when the tile has no current-content row. -/
structure WorkItem where
  coord : Coord
  lastModified : Option ℚ
  priorHash : Option Nat
deriving DecidableEq

/-- JS number priorities: a rational, or `Infinity` (`⊤`). -/
abbrev Prio := WithTop ℚ

/-- The priority computed by `loadTilesIntoQueue` of `tileScraper.js`:
`priority = age * 100 + (tile.last_modified ? 0 : 10000)` where `age` is the
elapsed hours since `last_modified`, or `Infinity` for a never-fetched tile;
in JS float arithmetic `Infinity * 100 + 10000 = Infinity`. -/
def itemPriority (now : ℚ) (it : WorkItem) : Prio :=
  match it.lastModified with
  | some t => ((now - t) * 100 : ℚ)
  | none => ⊤

/-- Ordering of the queue after `PriorityQueue.enqueue`'s
`sort((a, b) => b.priority - a.priority)`: descending priority.  The JS sort
treats a NaN comparator value (only possible for two `Infinity` priorities,
whose difference is NaN) as 0, i.e. as a tie. -/
def prioGe (e f : WorkItem × Prio) : Prop := f.2 ≤ e.2

instance : DecidableRel prioGe := fun e f => inferInstanceAs (Decidable (f.2 ≤ e.2))

instance : IsTotal (WorkItem × Prio) prioGe := ⟨fun e f => (le_total f.2 e.2)⟩

instance : IsTrans (WorkItem × Prio) prioGe :=
  ⟨fun _ _ _ h h' => le_trans h' h⟩

/-- The in-memory priority queue: the JS class keeps a plain array that is
fully re-sorted (descending, stable) after every push. -/
abbrev PQueue := List (WorkItem × Prio)

/-- `PriorityQueue.enqueue(tile, priority)`: push, then stable sort by
descending priority.  A stable sort is unique, so the JS `Array.sort`
(stable) is embedded by insertion sort for `prioGe`. -/
def enqueue (q : PQueue) (it : WorkItem) (p : Prio) : PQueue :=
  List.insertionSort prioGe (q ++ [(it, p)])

/-- `PriorityQueue.dequeue()`: `shift()` the front element. -/
def dequeue (q : PQueue) : Option ((WorkItem × Prio) × PQueue) :=
  match q with
  | [] => none
  | e :: rest => some (e, rest)

/-- The enqueue loop of `loadTilesIntoQueue`: each selected tile is enqueued
with its computed priority. -/
def loadQueue (q : PQueue) (items : List WorkItem) (now : ℚ) : PQueue :=
  items.foldl (fun acc it => enqueue acc it (itemPriority now it)) q

/-- The freshness filter of both `loadTilesIntoQueue` variants:
`p.last_modified IS NULL OR p.last_modified < now - interval
'updateInterval hours'`. -/
def isStale (pbf : PbfTable) (now interval : ℚ) (t : TileRec) : Bool :=
  match lookupPbf pbf ⟨t.x, t.y, t.z⟩ with
  | none => true
  | some row => row.lastModified < now - interval

/-- The sort key `COALESCE(p.last_modified, '1970-01-01')` (the epoch is 0 in
our hour timestamps). -/
def coalesceLM (pbf : PbfTable) (t : TileRec) : ℚ :=
  match lookupPbf pbf ⟨t.x, t.y, t.z⟩ with
  | none => 0
  | some row => row.lastModified

/-- Ordering of the postgres query: `ORDER BY COALESCE(last_modified, epoch)
ASC` (tie order unspecified in SQL; embedded as a stable sort). -/
def lmLe (pbf : PbfTable) (a b : TileRec) : Prop :=
  coalesceLM pbf a ≤ coalesceLM pbf b

instance (pbf : PbfTable) : DecidableRel (lmLe pbf) :=
  fun a b => inferInstanceAs (Decidable (coalesceLM pbf a ≤ coalesceLM pbf b))

/-- Row-to-work-item conversion of the LEFT JOIN selection. -/
def toWorkItem (pbf : PbfTable) (t : TileRec) : WorkItem :=
  { coord := ⟨t.x, t.y, t.z⟩
    lastModified := (lookupPbf pbf ⟨t.x, t.y, t.z⟩).map (·.lastModified)
    priorHash := (lookupPbf pbf ⟨t.x, t.y, t.z⟩).map (·.hash) }

/-- The single zoom level the postgres `loadTilesIntoQueue` queries:
`this.settings.zoomLevels?.[0] || this.settings.maxZoom` (JS `||`: an empty
list yields `undefined`, and a first element 0 is falsy; both fall back to
`maxZoom`). -/
def zoomPick (st : ScraperSettings) : Nat :=
  match st.zoomLevels with
  | [] => st.maxZoom
  | z :: _ => if z = 0 then st.maxZoom else z

/-- `loadTilesIntoQueue` of `tileScraper.js` (postgres): tiles LEFT JOINed
with `pbf_tiles`, stale, `AND t.z = $1` for the single picked zoom, ordered
by ascending `COALESCE(last_modified, epoch)`, `LIMIT batchSize`. -/
def loadTilesIntoQueueP (tiles : List TileRec) (pbf : PbfTable)
    (st : ScraperSettings) (now : ℚ) : List WorkItem :=
  let zoom := zoomPick st
  let cands := tiles.filter
    (fun t => isStale pbf now st.updateInterval t && t.z == zoom)
  (((List.insertionSort (lmLe pbf) cands).take st.batchSize).map (toWorkItem pbf))

/-- The zoom condition of `loadTilesIntoQueue` in `scraper.js` (sqlite):
`t.z IN (zoomLevels)` when the list is non-empty, else
`t.z BETWEEN minZoom AND maxZoom`. -/
def inScopeS (st : ScraperSettings) (t : TileRec) : Bool :=
  if st.zoomLevels.isEmpty then
    st.minZoom ≤ t.z && t.z ≤ st.maxZoom
  else
    st.zoomLevels.contains t.z

/-- Ordering of the sqlite query: `ORDER BY t.z DESC, COALESCE(last_modified,
epoch) ASC`. -/
def orderS (pbf : PbfTable) (a b : TileRec) : Prop :=
  b.z < a.z ∨ (a.z = b.z ∧ coalesceLM pbf a ≤ coalesceLM pbf b)

instance (pbf : PbfTable) : DecidableRel (orderS pbf) :=
  fun a b => inferInstanceAs
    (Decidable (b.z < a.z ∨ (a.z = b.z ∧ coalesceLM pbf a ≤ coalesceLM pbf b)))

/-- `loadTilesIntoQueue` of `scraper.js` (sqlite): stale tiles in the
range/subset zoom scope, ordered by zoom descending then staleness,
`LIMIT batchSize`. -/
def loadTilesIntoQueueS (tiles : List TileRec) (pbf : PbfTable)
    (st : ScraperSettings) (now : ℚ) : List WorkItem :=
  let cands := tiles.filter
    (fun t => isStale pbf now st.updateInterval t && inScopeS st t)
  (((List.insertionSort (orderS pbf) cands).take st.batchSize).map (toWorkItem pbf))

/-- How the update transaction of a tile ends.  The statement order in the
source is `BEGIN`, the log call, the history insert (when the tile has a
prior hash) immediately followed by `updated++`, the `pbf_tiles` upsert, and
`COMMIT`; any statement error causes `ROLLBACK` and a rethrow.  `failEarly`
is a failure at or before the history insert (`updated++` has not run);
`failLate` is a failure at the upsert or the `COMMIT`, after `updated++`
already ran for a tile with a prior hash. -/
inductive TxnResult where
  | ok
  | failEarly
  | failLate
deriving DecidableEq

/-- The environment of one `scrapePbfTiles` run: the hash primitive, the
remote tile source (`none` is a non-ok response or transport error, which
`fetchPbfTile` turns into `null`), an oracle giving the outcome of the
update transaction for a tile, the `tiles` table (discovery is not running
concurrently), the settings, and the clock. -/
structure ScrapeEnv where
  hashFn : Bytes → Nat
  fetch : Coord → Option Bytes
  txnOutcome : Coord → TxnResult
  tiles : List TileRec
  settings : ScraperSettings
  now : ℚ

/-- The outcome of one iteration of the Draining loop body: the store after
the iteration and the increments of the `processed`, `updated` and `errors`
counters. -/
structure TileOutcome where
  db : ScrapeDb
  dProcessed : Nat
  dUpdated : Nat
  dErrors : Nat
deriving DecidableEq

/-- One iteration of the `scrapePbfTiles` loop body of `tileScraper.js` for a
dequeued work item: fetch (a null result increments `errors` and continues);
hash; `if (!tile.hash || tile.hash !== newHash)` open a transaction that
appends the new bytes and hash to `pbf_tiles_history` — only when
`tile.hash` exists, with `updated++` right after the insert — then upserts
`pbf_tiles` and commits.  Any transaction failure rolls the store back
entirely and the outer catch counts one error, but the in-memory `updated`
counter is not rolled back: a failure at the upsert or `COMMIT`
(`TxnResult.failLate`) leaves the increment made after the history insert of
a prior-hash tile, while an earlier failure leaves `updated` untouched.  An
unchanged hash skips the transaction entirely.  `processed` is incremented
on the non-error paths only (the rethrow jumps over it). -/
def processTile (env : ScrapeEnv) (db : ScrapeDb) (it : WorkItem) : TileOutcome :=
  match env.fetch it.coord with
  | none => ⟨db, 0, 0, 1⟩
  | some pbfData =>
    let newHash := env.hashFn pbfData
    if it.priorHash.isNone || it.priorHash != some newHash then
      match env.txnOutcome it.coord with
      | .failEarly => ⟨db, 0, 0, 1⟩
      | .failLate => ⟨db, 0, if it.priorHash.isSome then 1 else 0, 1⟩
      | .ok =>
        let db1 := if it.priorHash.isSome then
            { db with history := db.history ++ [(it.coord, pbfData, newHash)] }
          else db
        let db2 := { db1 with pbf := upsertPbf db1.pbf it.coord ⟨pbfData, newHash, env.now⟩ }
        ⟨db2, 1, if it.priorHash.isSome then 1 else 0, 0⟩
    else
      ⟨db, 1, 0, 0⟩

/-- A JS number value as handed to the stats store: a rational or NaN. -/
inductive JVal where
  | num (q : ℚ)
  | nan
deriving DecidableEq

/-- JS addition on numbers: any NaN operand gives NaN. -/
def jsAdd : JVal → JVal → JVal
  | .num a, .num b => .num (a + b)
  | _, _ => .nan

/-- The coercion `isNaN(v) ? 0 : v` used by the insert branch of `saveStats`;
`v` may also be `undefined` (a field not supplied), and `isNaN(undefined)` is
true, so an absent field is also stored as 0. -/
def insVal : Option JVal → ℚ
  | some (.num q) => q
  | _ => 0

/-- The partial stats object passed to `Database.saveStats` (absent fields
are `undefined`). -/
structure StatsInput where
  totalTiles : Option JVal
  processedTiles : Option JVal
  updatedTiles : Option JVal
  currentZoom : Option JVal
  initializationStartTime : Option JVal
  initializationEndTime : Option JVal
deriving DecidableEq

/-- A `StatsInput` with every field undefined. -/
def emptyStats : StatsInput := ⟨none, none, none, none, none, none⟩

/-- The singleton `stats` row. -/
structure StatsRow where
  total_tiles : JVal
  processed_tiles : JVal
  updated_tiles : JVal
  current_zoom : Option JVal
  last_update : ℚ
  initialization_start_time : Option JVal
  initialization_end_time : Option JVal
deriving DecidableEq

/-- Update of one counter column in the existing-row branch of `saveStats`:
untouched when the field is undefined, else `append ? stored + value :
value`. -/
def updField (append : Bool) (old : JVal) : Option JVal → JVal
  | none => old
  | some v => if append then jsAdd old v else v

/-- `Database.saveStats(stats, append)`: when a `stats` row with id 1 exists,
the three counters are updated per `updField`, `current_zoom` and the two
initialization timestamps are replaced when supplied, and `last_update` is
always set; when no row exists, the values are inserted as given — the
`append` flag is not consulted — with the three counters coerced through
`isNaN(v) ? 0 : v`. -/
def saveStats (existing : Option StatsRow) (s : StatsInput) (append : Bool)
    (now : ℚ) : StatsRow :=
  match existing with
  | some r =>
      { total_tiles := updField append r.total_tiles s.totalTiles
        processed_tiles := updField append r.processed_tiles s.processedTiles
        updated_tiles := updField append r.updated_tiles s.updatedTiles
        current_zoom :=
          match s.currentZoom with
          | none => r.current_zoom
          | some v => some v
        last_update := now
        initialization_start_time :=
          match s.initializationStartTime with
          | none => r.initialization_start_time
          | some v => some v
        initialization_end_time :=
          match s.initializationEndTime with
          | none => r.initialization_end_time
          | some v => some v }
  | none =>
      { total_tiles := .num (insVal s.totalTiles)
        processed_tiles := .num (insVal s.processedTiles)
        updated_tiles := .num (insVal s.updatedTiles)
        current_zoom := s.currentZoom
        last_update := now
        initialization_start_time := s.initializationStartTime
        initialization_end_time := s.initializationEndTime }

/-- The state threaded through the Draining loop of `scrapePbfTiles`: the
priority queue, the store, the stats row, and the three run counters. -/
structure LoopState where
  queue : PQueue
  db : ScrapeDb
  stats : Option StatsRow
  processed : Nat
  updated : Nat
  errors : Nat
deriving DecidableEq

/-- The Draining loop of `scrapePbfTiles` in `tileScraper.js`, fuel-indexed
(the JS `while` has no a-priori bound).  Loop condition: the queue is
non-empty and, when `maxTilesToProcess > 0`, fewer than that many tiles have
been processed.  Each iteration dequeues one item and runs `processTile`; on
the non-error paths, every `minQueueSize`-th processed tile appends
`minQueueSize` to the stored `processedTiles` stat and, if the queue has
fallen below `minQueueSize`, reloads it via `loadTilesIntoQueueP` (JS
`processed % minQueueSize` is NaN when `minQueueSize` is 0, so the block is
skipped then).  No stop flag is consulted anywhere in the loop. -/
def scrapeLoop (env : ScrapeEnv) : Nat → LoopState → LoopState
  | 0, s => s
  | fuel + 1, s =>
    if s.queue.isEmpty then s
    else if env.settings.maxTilesToProcess > 0 &&
        env.settings.maxTilesToProcess ≤ s.processed then s
    else
      match dequeue s.queue with
      | none => s
      | some ((it, _), rest) =>
        let r := processTile env s.db it
        let s1 : LoopState :=
          { queue := rest
            db := r.db
            stats := s.stats
            processed := s.processed + r.dProcessed
            updated := s.updated + r.dUpdated
            errors := s.errors + r.dErrors }
        let s2 : LoopState :=
          if r.dErrors == 0 && env.settings.minQueueSize != 0 &&
              s1.processed % env.settings.minQueueSize == 0 then
            let stats1 := some (saveStats s1.stats
              { emptyStats with processedTiles := some (.num (env.settings.minQueueSize : ℚ)) }
              true env.now)
            let q2 := if s1.queue.length < env.settings.minQueueSize then
                loadQueue s1.queue (loadTilesIntoQueueP env.tiles s1.db.pbf env.settings env.now) env.now
              else s1.queue
            { s1 with stats := stats1, queue := q2 }
          else s1
        scrapeLoop env fuel s2

/-- The controller run-state fields the stop route touches. -/
structure ControllerState where
  isInitialized : Bool
  isRunning : Bool
deriving DecidableEq

/-- The reply of `POST /api/scrape/stop`. -/
inductive StopReply where
  | rejected
  | willStop
deriving DecidableEq

/-- The stop route of `api.js`: a 400 rejection when not running; otherwise
it sets `controller.isRunning = false` and replies that the scraper "will
stop after current tile".  It performs no other action — in particular it
does not signal the scrape loop, which never reads `isRunning`. -/
def stopRoute (c : ControllerState) : ControllerState × StopReply :=
  if !c.isRunning then (c, .rejected)
  else ({ c with isRunning := false }, .willStop)

/-- `TileServer.validateTileCoordinates` (after the integer parse, whose NaN
failures are rejected upstream of these checks): the zoom must lie in the
scraper's bounds 10–16 and `0 ≤ x, y ≤ 2^z - 1`. -/
def validateTileCoordinates (x y z : Int) : Bool :=
  if z < 10 || z > 16 then false
  else
    let maxTile : Int := 2 ^ z.toNat - 1
    !(x < 0 || x > maxTile || y < 0 || y > maxTile)

/-- `TileServer.getTile`: `SELECT data FROM pbf_tiles WHERE x=$1 AND y=$2 AND
z=$3`, returning the stored bytes or null.  Rows are keyed by naturals;
negative coordinates match no row. -/
def getTile (pbf : PbfTable) (x y z : Int) : Option Bytes :=
  if 0 ≤ x ∧ 0 ≤ y ∧ 0 ≤ z then
    (lookupPbf pbf ⟨x.toNat, y.toNat, z.toNat⟩).map (·.data)
  else none

/-- Result of the tile-serving interface. -/
inductive TileResult where
  | ok (data : Bytes)
  | notFound
  | invalid
deriving DecidableEq

/-- Modelled from the spec: the HTTP route that combines coordinate
validation with the tile lookup is not among these sources (only the
`TileServer` class and its wiring are); per the spec, `getTileContent(x, y,
z)` returns current stored bytes or "not found", and "coordinates must be
validated against the configured zoom range and the `2^z` coordinate bound
before any store access".  Validation and lookup are the source-embedded
`validateTileCoordinates` and `getTile`. -/
def getTileContent (pbf : PbfTable) (x y z : Int) : TileResult :=
  if validateTileCoordinates x y z then
    match getTile pbf x y z with
    | some d => .ok d
    | none => .notFound
  else .invalid

/-- Presence of a coordinate key in the `tiles` table. -/
def keyPresent (s : List TileRec) (x y z : Nat) : Bool :=
  s.any (fun r => r.x == x && r.y == y && r.z == z)

/-- One `INSERT INTO tiles ... ON CONFLICT (x, y, z) DO NOTHING`: a duplicate
coordinate triple is silently ignored. -/
def insertTile (s : List TileRec) (t : TileRec) : List TileRec :=
  if keyPresent s t.x t.y t.z then s else s ++ [t]

/-- A batch of conflict-ignoring inserts (`TileGenerator.batchInsertTiles`;
transaction boundaries do not affect the resulting rows in the absence of
failures). -/
def insertTiles (s : List TileRec) (ts : List TileRec) : List TileRec :=
  ts.foldl insertTile s

/-- The four candidate children `(2*px + dx, 2*py + dy)` of a parent record
in `TileGenerator.generateTiles`, in source iteration order (`dx` outer,
`dy` inner), kept when the geometry test accepts them, and carrying the
parent reference `(parent.x, parent.y, parent.z)`. -/
def childrenOf (geo : Nat → Nat → Nat → Bool) (z : Nat) (p : TileRec) : List TileRec :=
  (List.range 2).flatMap (fun dx =>
    (List.range 2).flatMap (fun dy =>
      if geo (p.x * 2 + dx) (p.y * 2 + dy) z then
        [⟨p.x * 2 + dx, p.y * 2 + dy, z, some (p.x, p.y, p.z)⟩]
      else []))

/-- The candidate children inserted by one zoom level of
`TileGenerator.generateTiles`: the accepted children of every stored record
at `z-1` (the parent rows are read once, before any child insert). -/
def passCands (geo : Nat → Nat → Nat → Bool) (z : Nat) (s : List TileRec) : List TileRec :=
  (s.filter (fun r => r.z == z - 1)).flatMap (childrenOf geo z)

/-- One zoom level of `TileGenerator.generateTiles` for `z > minZoom`:
insert the intersecting candidate children if absent. -/
def zoomPass (geo : Nat → Nat → Nat → Bool) (z : Nat) (s : List TileRec) : List TileRec :=
  insertTiles s (passCands geo z s)

/-- The tiles accepted by the minimum-zoom scan of
`TileGenerator.generateTilesForZoom`: every `(x, y)` of the tile bounding box
`[minX, maxX] × [minY, maxY]` passing the geometry test, with null parent
references.  The box comes from the region geometry (an external
collaborator), so its corners are parameters. -/
def baseCands (geo : Nat → Nat → Nat → Bool) (z minX maxX minY maxY : Nat) : List TileRec :=
  (List.range (maxX + 1 - minX)).flatMap (fun i =>
    (List.range (maxY + 1 - minY)).flatMap (fun j =>
      if geo (minX + i) (minY + j) z then [⟨minX + i, minY + j, z, none⟩] else []))

/-- `TileGenerator.generateTilesForZoom`: the exhaustive minimum-zoom scan,
inserting every accepted tile if absent. -/
def basePass (geo : Nat → Nat → Nat → Bool) (z minX maxX minY maxY : Nat)
    (s : List TileRec) : List TileRec :=
  insertTiles s (baseCands geo z minX maxX minY maxY)

/-- The zoom levels `minZ + 1, ..., maxZ` walked by `generateTiles` after the
base scan. -/
def zoomLevelsAbove (minZ maxZ : Nat) : List Nat :=
  (List.range (maxZ - minZ)).map (fun i => minZ + 1 + i)

/-- `TileGenerator.generateTiles`: the base scan at `minZoom` followed by one
`zoomPass` per level up to `maxZoom`. -/
def generateTiles (geo : Nat → Nat → Nat → Bool) (minZ maxZ minX maxX minY maxY : Nat)
    (s : List TileRec) : List TileRec :=
  (zoomLevelsAbove minZ maxZ).foldl (fun st z => zoomPass geo z st)
    (basePass geo minZ minX maxX minY maxY s)

/-- The parent-containment invariant of claim C7 over a `tiles` store: every
record sits at or above the minimum zoom; records at the minimum zoom have
null parent references; every record above it references
`(x / 2, y / 2, z - 1)` and such a record exists in the store. -/
def parentInv (minZ : Nat) (s : List TileRec) : Prop :=
  ∀ r ∈ s, minZ ≤ r.z ∧
    (r.z = minZ → r.parent = none) ∧
    (minZ < r.z → r.parent = some (r.x / 2, r.y / 2, r.z - 1) ∧
      ∃ p ∈ s, p.x = r.x / 2 ∧ p.y = r.y / 2 ∧ p.z = r.z - 1)

/-- Closure of a store under the discovery step at level `z`: all candidate
children of stored records at `z-1` are already keyed in the store. -/
def levelClosed (geo : Nat → Nat → Nat → Bool) (z : Nat) (s : List TileRec) : Prop :=
  ∀ p ∈ s, p.z = z - 1 → ∀ c ∈ childrenOf geo z p, keyPresent s c.x c.y c.z = true

/-- A per-tile fetch failure during refresh: `fetchPbfTile` returned null
(non-ok response or transport error). -/
def fetchFailure (env : ScrapeEnv) (it : WorkItem) : Prop :=
  env.fetch it.coord = none

/-- A per-tile failure inside the update transaction during refresh: the
fetch succeeded, the new-or-changed condition opened a transaction, and a
statement in it failed (the source rolls back and rethrows into the item
catch). -/
def txnFailure (env : ScrapeEnv) (it : WorkItem) : Prop :=
  ∃ data, env.fetch it.coord = some data ∧
    (it.priorHash.isNone || it.priorHash != some (env.hashFn data)) = true ∧
    env.txnOutcome it.coord ≠ .ok

end TMS

namespace TMS

/-- C10: If the singleton stats row does not yet exist, `saveStats` inserts
the supplied values as absolute values even when called in append mode — the
append flag is only consulted when a row already exists — and NaN (or
absent) `totalTiles`, `processedTiles` and `updatedTiles` values are stored
as 0 in that insert; when a row exists and append mode is on, a supplied
counter is added to the stored value. -/
theorem saveStats_insert_is_absolute :
    (∀ s now, saveStats none s true now = saveStats none s false now)
    ∧ (∀ s append now,
        (saveStats none s append now).total_tiles = .num (insVal s.totalTiles)
        ∧ (saveStats none s append now).processed_tiles = .num (insVal s.processedTiles)
        ∧ (saveStats none s append now).updated_tiles = .num (insVal s.updatedTiles))
    ∧ (insVal (some .nan) = 0 ∧ insVal none = 0 ∧ ∀ q, insVal (some (.num q)) = q)
    ∧ (∀ r q now,
        (saveStats (some r) { emptyStats with totalTiles := some (.num q) } true now).total_tiles
          = jsAdd r.total_tiles (.num q)) := by
  refine ⟨fun s now => rfl, fun s append now => ⟨rfl, rfl, rfl⟩,
    ⟨rfl, rfl, fun q => rfl⟩, fun r q now => rfl⟩

/-- C9: `getTileContent` validates its coordinates before any store access —
when validation fails the result is the invalid rejection for every possible
store —, validation accepts exactly the coordinates with `10 ≤ z ≤ 16` and
`0 ≤ x, y ≤ 2^z - 1`, and for valid coordinates the result is the stored
bytes of the `pbf_tiles` row or a not-found result when no row exists. -/
theorem getTileContent_validates_before_store :
    (∀ x y z pbf, validateTileCoordinates x y z = false →
      getTileContent pbf x y z = .invalid)
    ∧ (∀ x y z, validateTileCoordinates x y z = true ↔
        (10 ≤ z ∧ z ≤ 16 ∧ 0 ≤ x ∧ x ≤ 2 ^ z.toNat - 1 ∧ 0 ≤ y ∧ y ≤ 2 ^ z.toNat - 1))
    ∧ (∀ x y z pbf, validateTileCoordinates x y z = true →
        getTileContent pbf x y z =
          match lookupPbf pbf ⟨x.toNat, y.toNat, z.toNat⟩ with
          | some row => .ok row.data
          | none => .notFound) := by
  have hchar : ∀ x y z : Int, validateTileCoordinates x y z = true ↔
      (10 ≤ z ∧ z ≤ 16 ∧ 0 ≤ x ∧ x ≤ 2 ^ z.toNat - 1 ∧ 0 ≤ y ∧ y ≤ 2 ^ z.toNat - 1) := by
    intro x y z
    simp only [validateTileCoordinates]
    by_cases hz : z < 10 || z > 16
    · simp only [hz, if_true]
      constructor
      · intro h; exact absurd h (by simp)
      · intro h
        rcases h with ⟨h10, h16, _⟩
        revert hz
        simp only [Bool.or_eq_true, decide_eq_true_eq]
        omega
    · rw [if_neg hz]
      simp only [Bool.or_eq_true, decide_eq_true_eq, not_or, not_lt] at hz
      simp only [Bool.not_eq_true', Bool.or_eq_false_iff, decide_eq_false_iff_not, not_lt]
      omega
  refine ⟨?_, hchar, ?_⟩
  · intro x y z pbf h
    simp only [getTileContent, h, Bool.false_eq_true, if_false]
  · intro x y z pbf h
    have hb := (hchar x y z).mp h
    have hx : (0 : Int) ≤ x := hb.2.2.1
    have hy : (0 : Int) ≤ y := hb.2.2.2.2.1
    have hz : (0 : Int) ≤ z := le_trans (by norm_num) hb.1
    simp only [getTileContent, h, if_true, getTile, hx, hy, hz, and_self, if_true]
    cases lookupPbf pbf ⟨x.toNat, y.toNat, z.toNat⟩ with
    | none => rfl
    | some row => rfl

/-- Witness for the hypotheses of the C9 theorem: coordinates with zoom 5
are rejected without consulting the store, and the valid coordinates
`(1, 2, 10)` return the stored bytes. -/
theorem getTileContent_validates_before_store_witness :
    getTileContent [] 0 0 5 = .invalid
    ∧ getTileContent [(⟨1, 2, 10⟩, ⟨[7], 3, 0⟩)] 1 2 10 = .ok [7] := by
  constructor
  · exact getTileContent_validates_before_store.1 0 0 5 [] (by decide)
  · have h := getTileContent_validates_before_store.2.2 1 2 10
      [(⟨1, 2, 10⟩, ⟨[7], 3, 0⟩)] (by decide)
    rw [h]
    decide

end TMS

namespace TMS

/-- C1 counterexample: a tile that already has a `pbf_tiles` row (prior hash
5) is fetched and the new bytes hash to the same value 5; the processed
iteration leaves `pbf_tiles_history` untouched, refuting the claim that a
history row is appended for any fetched hash value including an unchanged
one (the source gate `!tile.hash || tile.hash !== newHash` skips the
transaction entirely). -/
theorem processTile_unchanged_hash_no_history :
    (let env : ScrapeEnv :=
      { hashFn := fun b => b.headD 0
        fetch := fun _ => some [5]
        txnOutcome := fun _ => .ok
        tiles := []
        settings := defaultSettings
        now := 100 }
     let c : Coord := ⟨1, 2, 16⟩
     let db : ScrapeDb := { pbf := [(c, ⟨[5], 5, 0⟩)], history := [] }
     let it : WorkItem := { coord := c, lastModified := some 0, priorHash := some 5 }
     lookupPbf db.pbf c = some ⟨[5], 5, 0⟩
     ∧ env.fetch c = some [5]
     ∧ env.hashFn [5] = 5
     ∧ (processTile env db it).db.history = []
     ∧ (processTile env db it).dProcessed = 1) := by
  decide

/-- C1 amended: during a refresh iteration with a successful fetch and a
non-failing transaction, a `pbf_tiles_history` row holding the newly fetched
bytes and their hash is appended exactly when the tile already had a prior
hash and the new hash differs from it; with an unchanged hash (or no prior
row) the history is left as it was. -/
theorem processTile_history_append (env : ScrapeEnv) (db : ScrapeDb)
    (it : WorkItem) (data : Bytes)
    (hfetch : env.fetch it.coord = some data)
    (hok : env.txnOutcome it.coord = .ok) :
    (processTile env db it).db.history =
      if it.priorHash.isSome ∧ it.priorHash ≠ some (env.hashFn data) then
        db.history ++ [(it.coord, data, env.hashFn data)]
      else
        db.history := by
  cases hprior : it.priorHash with
  | none =>
    simp [processTile, hfetch, hok, hprior]
  | some h =>
    by_cases hne : h = env.hashFn data
    · simp [processTile, hfetch, hok, hprior, hne]
    · simp [processTile, hfetch, hok, hprior, hne]

/-- Witness for the C1 amended theorem: a changed hash (prior 5, new 9)
appends one history row with the new bytes and hash. -/
theorem processTile_history_append_witness :
    (let env : ScrapeEnv :=
      { hashFn := fun b => b.headD 0
        fetch := fun _ => some [9]
        txnOutcome := fun _ => .ok
        tiles := []
        settings := defaultSettings
        now := 100 }
     let c : Coord := ⟨1, 2, 16⟩
     let db : ScrapeDb := { pbf := [(c, ⟨[5], 5, 0⟩)], history := [] }
     let it : WorkItem := { coord := c, lastModified := some 0, priorHash := some 5 }
     (processTile env db it).db.history = [(c, [9], 9)]) := by
  have h := processTile_history_append
    { hashFn := fun b => b.headD 0
      fetch := fun _ => some [9]
      txnOutcome := fun _ => .ok
      tiles := []
      settings := defaultSettings
      now := 100 }
    { pbf := [(⟨1, 2, 16⟩, ⟨[5], 5, 0⟩)], history := [] }
    { coord := ⟨1, 2, 16⟩, lastModified := some 0, priorHash := some 5 }
    [9] rfl rfl
  show (processTile _ _ _).db.history = [(⟨1, 2, 16⟩, [9], 9)]
  rw [h]
  decide

/-- C5: when the fetched bytes hash to exactly the tile's stored prior hash,
the iteration opens no transaction and changes nothing in the store: the
whole `ScrapeDb` (the `pbf_tiles` row with its data, hash and
`last_modified`, and the `pbf_tiles_history` table) is returned unchanged,
regardless of the transaction-failure oracle, and only `processed` is
incremented. -/
theorem processTile_frame_on_equal_hash (env : ScrapeEnv) (db : ScrapeDb)
    (it : WorkItem) (row : PbfRow) (data : Bytes)
    (hrow : lookupPbf db.pbf it.coord = some row)
    (hprior : it.priorHash = some row.hash)
    (hfetch : env.fetch it.coord = some data)
    (hhash : env.hashFn data = row.hash) :
    processTile env db it = ⟨db, 1, 0, 0⟩
    ∧ lookupPbf (processTile env db it).db.pbf it.coord = some row := by
  have h1 : processTile env db it = ⟨db, 1, 0, 0⟩ := by
    simp [processTile, hfetch, hprior, hhash]
  exact ⟨h1, by rw [h1]; exact hrow⟩

/-- Witness for the C5 theorem: a concrete store, item and environment with
an unchanged hash leave the store untouched. -/
theorem processTile_frame_on_equal_hash_witness :
    processTile
      { hashFn := fun b => b.headD 0
        fetch := fun _ => some [5]
        txnOutcome := fun _ => .failLate
        tiles := []
        settings := defaultSettings
        now := 100 }
      { pbf := [(⟨1, 2, 16⟩, ⟨[5], 5, 0⟩)], history := [] }
      { coord := ⟨1, 2, 16⟩, lastModified := some 0, priorHash := some 5 }
      = ⟨{ pbf := [(⟨1, 2, 16⟩, ⟨[5], 5, 0⟩)], history := [] }, 1, 0, 0⟩ := by
  exact (processTile_frame_on_equal_hash _ _ _ ⟨[5], 5, 0⟩ [5] (by decide) rfl rfl rfl).1

end TMS

namespace TMS

/-- Any per-tile failure — a null fetch result or a failing update
transaction (rolled back) — leaves the store unchanged and yields exactly
one error increment with `processed` not advanced; the `updated` increment
is 1 exactly for a late transaction failure (after the history insert of a
prior-hash tile, whose `updated++` is not rolled back) and 0 in every other
failure case. -/
theorem processTile_of_failure (env : ScrapeEnv) (db : ScrapeDb)
    (it : WorkItem) (hfail : fetchFailure env it ∨ txnFailure env it) :
    (processTile env db it).db = db
    ∧ (processTile env db it).dProcessed = 0
    ∧ (processTile env db it).dErrors = 1
    ∧ (processTile env db it).dUpdated =
        (if env.fetch it.coord = none then 0
         else if env.txnOutcome it.coord = .failLate ∧ it.priorHash.isSome then 1
         else 0) := by
  rcases hfail with hf | ⟨data, hfetch, hcond, htf⟩
  · have hf' : env.fetch it.coord = none := hf
    simp [processTile, hf']
  · cases hout : env.txnOutcome it.coord with
    | ok => exact absurd hout htf
    | failEarly => simp [processTile, hfetch, hcond, hout]
    | failLate =>
      cases hp : it.priorHash.isSome with
      | true => simp [processTile, hfetch, hcond, hout, hp]
      | false => simp [processTile, hfetch, hcond, hout, hp]

/-- C6: every per-tile failure during a refresh run — a fetch failure or any
failure inside the update transaction — is caught at the item level: the
transaction, if open, is rolled back entirely so the store is unchanged for
that tile, the error counter is incremented, nothing is counted as
processed, and the loop simply continues with the remaining queue; a single
tile's failure never terminates the scheduler.  The in-memory `updated`
counter is the one thing a failure can leave behind: the source increments
it right after the history insert, before the upsert and `COMMIT`, so a
failure in those later statements keeps that increment (the iteration's
`dUpdated`); the failure is also logged, which the embedding does not
track. -/
theorem scrapeLoop_continues_after_failure (env : ScrapeEnv) (fuel : Nat)
    (s : LoopState) (it : WorkItem) (p : Prio) (rest : PQueue)
    (hq : s.queue = (it, p) :: rest)
    (hcap : env.settings.maxTilesToProcess = 0 ∨
      s.processed < env.settings.maxTilesToProcess)
    (hfail : fetchFailure env it ∨ txnFailure env it) :
    (processTile env s.db it).db = s.db
    ∧ (processTile env s.db it).dProcessed = 0
    ∧ (processTile env s.db it).dErrors = 1
    ∧ scrapeLoop env (fuel + 1) s =
        scrapeLoop env fuel
          { s with queue := rest
                   updated := s.updated + (processTile env s.db it).dUpdated
                   errors := s.errors + 1 } := by
  obtain ⟨hdb, hpr, herr, _⟩ := processTile_of_failure env s.db it hfail
  refine ⟨hdb, hpr, herr, ?_⟩
  have hcapb : (decide (env.settings.maxTilesToProcess > 0) &&
      decide (env.settings.maxTilesToProcess ≤ s.processed)) = false := by
    rcases hcap with h | h
    · simp [h]
    · simp [Nat.not_le.mpr h]
  simp only [scrapeLoop, hq, List.isEmpty_cons, Bool.false_eq_true, if_false,
    hcapb, dequeue, hdb, hpr, herr, Nat.add_zero]
  simp only [show (1 == 0) = false from rfl, Bool.false_and, Bool.false_eq_true,
    if_false]

/-- Witness for the C6 theorem: a concrete one-item queue whose fetch fails
steps to the same loop with an empty queue, one error, and nothing else
changed (a fetch failure leaves the `updated` counter alone). -/
theorem scrapeLoop_continues_after_failure_witness :
    scrapeLoop
      ⟨fun b => b.headD 0, fun _ => none, fun _ => .ok, [], defaultSettings, 0⟩ 1
      ⟨[(⟨⟨1, 2, 16⟩, none, none⟩, ⊤)], ⟨[], []⟩, none, 0, 0, 0⟩ =
    scrapeLoop
      ⟨fun b => b.headD 0, fun _ => none, fun _ => .ok, [], defaultSettings, 0⟩ 0
      ⟨[], ⟨[], []⟩, none, 0, 0, 1⟩ :=
  (scrapeLoop_continues_after_failure
    ⟨fun b => b.headD 0, fun _ => none, fun _ => .ok, [], defaultSettings, 0⟩ 0
    ⟨[(⟨⟨1, 2, 16⟩, none, none⟩, ⊤)], ⟨[], []⟩, none, 0, 0, 0⟩
    ⟨⟨1, 2, 16⟩, none, none⟩ ⊤ [] rfl (Or.inr (by decide)) (Or.inl rfl)).2.2.2

/-- C2: the stop route of `api.js` only flips `controller.isRunning` and
replies (or rejects when not running); `scrapePbfTiles` never reads that
flag, so after a stop request while two items are queued the Draining loop —
which takes no stop input at all — still processes both items and drains the
queue to zero instead of halting after the in-flight tile with a non-empty
queue. -/
theorem stopRoute_does_not_halt_drain :
    (stopRoute ⟨true, true⟩ = (⟨true, false⟩, .willStop))
    ∧ (stopRoute ⟨true, false⟩ = (⟨true, false⟩, .rejected))
    ∧ (let env : ScrapeEnv :=
        { hashFn := fun b => b.headD 0
          fetch := fun c => some [c.x]
          txnOutcome := fun _ => .ok
          tiles := []
          settings := defaultSettings
          now := 0 }
       let it1 : WorkItem := ⟨⟨1, 1, 16⟩, none, none⟩
       let it2 : WorkItem := ⟨⟨2, 1, 16⟩, none, none⟩
       let s0 : LoopState := ⟨[(it1, ⊤), (it2, ⊤)], ⟨[], []⟩, none, 0, 0, 0⟩
       (scrapeLoop env 3 s0).queue = [] ∧ (scrapeLoop env 3 s0).processed = 2
       ∧ (scrapeLoop env 3 s0).errors = 0) := by
  refine ⟨rfl, rfl, ?_⟩
  decide

end TMS

namespace TMS

/-- The queue is sorted by descending priority after every enqueue. -/
theorem enqueue_sorted (q : PQueue) (it : WorkItem) (p : Prio) :
    List.Sorted prioGe (enqueue q it p) :=
  List.sorted_insertionSort prioGe (q ++ [(it, p)])

/-- Membership after an enqueue: the pushed pair joins the previous
elements. -/
theorem mem_enqueue {q : PQueue} {it : WorkItem} {p : Prio}
    {e : WorkItem × Prio} : e ∈ enqueue q it p ↔ e ∈ q ∨ e = (it, p) := by
  unfold enqueue
  rw [(List.perm_insertionSort prioGe (q ++ [(it, p)])).mem_iff]
  simp

/-- Membership in a loaded queue: an element of the initial queue, or one of
the loaded items paired with its computed priority. -/
theorem mem_loadQueue {items : List WorkItem} {now : ℚ} :
    ∀ {q : PQueue} {e : WorkItem × Prio},
      e ∈ loadQueue q items now ↔
        e ∈ q ∨ ∃ it ∈ items, e = (it, itemPriority now it) := by
  induction items with
  | nil =>
    intro q e
    simp [loadQueue]
  | cons a items ih =>
    intro q e
    have hdef : loadQueue q (a :: items) now
        = loadQueue (enqueue q a (itemPriority now a)) items now := rfl
    rw [hdef, ih, mem_enqueue]
    constructor
    · rintro ((h | h) | ⟨it, hit, rfl⟩)
      · exact Or.inl h
      · exact Or.inr ⟨a, by simp, h⟩
      · exact Or.inr ⟨it, by simp [hit], rfl⟩
    · rintro (h | ⟨it, hit, rfl⟩)
      · exact Or.inl (Or.inl h)
      · rcases List.mem_cons.mp hit with rfl | hit
        · exact Or.inl (Or.inr rfl)
        · exact Or.inr ⟨it, hit, rfl⟩

/-- A loaded queue is sorted whenever the initial queue is. -/
theorem loadQueue_sorted {items : List WorkItem} {now : ℚ} :
    ∀ {q : PQueue}, List.Sorted prioGe q →
      List.Sorted prioGe (loadQueue q items now) := by
  induction items with
  | nil =>
    intro q hq
    exact hq
  | cons a items ih =>
    intro q hq
    exact ih (enqueue_sorted q a (itemPriority now a))

/-- C4: the work-item priority equals `age_hours * 100` plus the 10000
never-fetched bonus, collapsing to `Infinity` when the tile has no
`pbf_tiles` row; a dequeue from a queue loaded by `loadTilesIntoQueue`
returns an item whose priority dominates every loaded item; and for the
concrete tiles A (never fetched), B (fetched 48 hours ago) and C (fetched
1 hour ago) the dequeue order is A, B, C in either enqueue order. -/
theorem dequeue_returns_max_priority :
    (∀ now items e rest, dequeue (loadQueue [] items now) = some (e, rest) →
      ∀ it ∈ items, itemPriority now it ≤ e.2)
    ∧ (∀ now it, it.lastModified = none → itemPriority now it = ⊤)
    ∧ (∀ now it t, it.lastModified = some t →
        itemPriority now it = (((now - t) * 100 : ℚ) : Prio))
    ∧ (let A : WorkItem := ⟨⟨0, 0, 16⟩, none, none⟩
       let B : WorkItem := ⟨⟨1, 0, 16⟩, some (-48), some 1⟩
       let C : WorkItem := ⟨⟨2, 0, 16⟩, some (-1), some 2⟩
       (loadQueue [] [A, B, C] 0).map Prod.fst = [A, B, C]
       ∧ (loadQueue [] [C, B, A] 0).map Prod.fst = [A, B, C]) := by
  refine ⟨?_, fun now it h => by simp [itemPriority, h],
    fun now it t h => by simp [itemPriority, h], ?_⟩
  · intro now items e rest hdq it hit
    have hmem : (it, itemPriority now it) ∈ loadQueue [] items now :=
      mem_loadQueue.mpr (Or.inr ⟨it, hit, rfl⟩)
    have hsort : List.Sorted prioGe (loadQueue [] items now) :=
      loadQueue_sorted List.sorted_nil
    cases hq : loadQueue [] items now with
    | nil =>
      rw [hq] at hdq
      cases hdq
    | cons f tail =>
      rw [hq] at hdq hmem hsort
      have hef : f = e ∧ tail = rest := by
        simpa [dequeue] using hdq
      rcases hef with ⟨rfl, rfl⟩
      rcases List.mem_cons.mp hmem with heq | htail
      · rw [← heq]
      · exact List.rel_of_sorted_cons hsort _ htail
  · have hA : itemPriority 0 (⟨⟨0, 0, 16⟩, none, none⟩ : WorkItem) = (⊤ : Prio) := rfl
    have hB : itemPriority 0 (⟨⟨1, 0, 16⟩, some (-48), some 1⟩ : WorkItem)
        = ((4800 : ℚ) : Prio) := by
      simp only [itemPriority]
      norm_num
    have hC : itemPriority 0 (⟨⟨2, 0, 16⟩, some (-1), some 2⟩ : WorkItem)
        = ((100 : ℚ) : Prio) := by
      simp only [itemPriority]
      norm_num
    have hbc : ((100 : ℚ) : Prio) ≤ ((4800 : ℚ) : Prio) := by
      rw [WithTop.coe_le_coe]
      norm_num
    have hcb : ¬(((4800 : ℚ) : Prio) ≤ ((100 : ℚ) : Prio)) := by
      rw [WithTop.coe_le_coe]
      norm_num
    have hbc2 : ((100 : Prio) ≤ (4800 : Prio)) := by exact_mod_cast hbc
    have hcb2 : ¬((4800 : Prio) ≤ (100 : Prio)) := by exact_mod_cast hcb
    refine ⟨?_, ?_⟩ <;>
      simp [loadQueue, enqueue, List.insertionSort, List.orderedInsert, prioGe,
        hA, hB, hC, hbc, hcb, hbc2, hcb2, top_le_iff]

/-- Witness for the hypotheses of the C4 theorem: dequeuing a queue loaded
with the single never-fetched tile A returns A, whose infinite priority
bounds A's own priority. -/
theorem dequeue_returns_max_priority_witness :
    itemPriority 0 (⟨⟨0, 0, 16⟩, none, none⟩ : WorkItem) ≤
      ((⟨⟨0, 0, 16⟩, none, none⟩ : WorkItem), (⊤ : Prio)).2 :=
  dequeue_returns_max_priority.1 0 [⟨⟨0, 0, 16⟩, none, none⟩]
    (⟨⟨0, 0, 16⟩, none, none⟩, ⊤) [] rfl ⟨⟨0, 0, 16⟩, none, none⟩ (by simp)

/-- Every item selected by the postgres `loadTilesIntoQueue` comes from a
stored tile that is stale and sits exactly at the picked single zoom level. -/
theorem mem_loadTilesIntoQueueP {tiles : List TileRec} {pbf : PbfTable}
    {st : ScraperSettings} {now : ℚ} {it : WorkItem}
    (h : it ∈ loadTilesIntoQueueP tiles pbf st now) :
    ∃ t ∈ tiles, it = toWorkItem pbf t
      ∧ isStale pbf now st.updateInterval t = true ∧ t.z = zoomPick st := by
  unfold loadTilesIntoQueueP at h
  rcases List.mem_map.mp h with ⟨t, ht, rfl⟩
  have ht2 := List.mem_of_mem_take ht
  have ht3 := (List.perm_insertionSort (lmLe pbf) _).mem_iff.mp ht2
  have ht4 := List.mem_filter.mp ht3
  have hb := ht4.2
  simp only [Bool.and_eq_true, beq_iff_eq] at hb
  exact ⟨t, ht4.1, rfl, hb.1, hb.2⟩

/-- Every item selected by the sqlite `loadTilesIntoQueue` comes from a
stored tile that is stale and inside the range/subset zoom scope. -/
theorem mem_loadTilesIntoQueueS {tiles : List TileRec} {pbf : PbfTable}
    {st : ScraperSettings} {now : ℚ} {it : WorkItem}
    (h : it ∈ loadTilesIntoQueueS tiles pbf st now) :
    ∃ t ∈ tiles, it = toWorkItem pbf t
      ∧ isStale pbf now st.updateInterval t = true ∧ inScopeS st t = true := by
  unfold loadTilesIntoQueueS at h
  rcases List.mem_map.mp h with ⟨t, ht, rfl⟩
  have ht2 := List.mem_of_mem_take ht
  have ht3 := (List.perm_insertionSort (orderS pbf) _).mem_iff.mp ht2
  have ht4 := List.mem_filter.mp ht3
  have hb := ht4.2
  simp only [Bool.and_eq_true] at hb
  exact ⟨t, ht4.1, rfl, hb.1, hb.2⟩

/-- C3 counterexample: with the default settings (`zoomLevels = []`,
`minZoom = 10`, `maxZoom = 16`, batch room to spare), a never-fetched —
hence stale — stored tile at zoom 12 lies inside the claimed
`[minZoom, maxZoom]` scope yet is not selected by the postgres
`loadTilesIntoQueue`, which queries only `t.z = zoomLevels[0] || maxZoom =
16`. -/
theorem loadTilesIntoQueueP_range_scope_cex :
    loadTilesIntoQueueP [⟨0, 0, 12, none⟩] [] defaultSettings 0 = []
    ∧ isStale [] 0 defaultSettings.updateInterval ⟨0, 0, 12, none⟩ = true
    ∧ defaultSettings.zoomLevels = []
    ∧ defaultSettings.minZoom ≤ 12 ∧ 12 ≤ defaultSettings.maxZoom
    ∧ 0 < defaultSettings.batchSize := by
  decide

/-- C3 amended: the Loading phase of the postgres scheduler
(`tileScraper.js`) selects up to `batchSize` stale tiles (null or expired
`last_modified`) drawn from a single zoom level — `zoomLevels[0]` when the
setting is non-empty (with JS falsiness sending 0 to the fallback), else
`maxZoom` — while the older sqlite scheduler (`scraper.js`) draws from the
full claimed scope: every zoom in `[minZoom, maxZoom]` when `zoomLevels` is
empty, or exactly the `zoomLevels` subset when non-empty. -/
theorem loadTilesIntoQueue_scope :
    (∀ tiles pbf st now it, it ∈ loadTilesIntoQueueP tiles pbf st now →
      ∃ t ∈ tiles, it = toWorkItem pbf t
        ∧ isStale pbf now st.updateInterval t = true ∧ t.z = zoomPick st)
    ∧ (∀ tiles pbf st now,
        (loadTilesIntoQueueP tiles pbf st now).length ≤ st.batchSize)
    ∧ (∀ tiles pbf st now it, it ∈ loadTilesIntoQueueS tiles pbf st now →
      ∃ t ∈ tiles, it = toWorkItem pbf t
        ∧ isStale pbf now st.updateInterval t = true ∧ inScopeS st t = true)
    ∧ (∀ tiles pbf st now,
        (loadTilesIntoQueueS tiles pbf st now).length ≤ st.batchSize)
    ∧ (∀ st t, st.zoomLevels = [] →
        (inScopeS st t = true ↔ st.minZoom ≤ t.z ∧ t.z ≤ st.maxZoom))
    ∧ (∀ st t, st.zoomLevels ≠ [] →
        (inScopeS st t = true ↔ t.z ∈ st.zoomLevels)) := by
  refine ⟨fun tiles pbf st now it h => mem_loadTilesIntoQueueP h,
    ?_, fun tiles pbf st now it h => mem_loadTilesIntoQueueS h, ?_, ?_, ?_⟩
  · intro tiles pbf st now
    unfold loadTilesIntoQueueP
    rw [List.length_map]
    exact List.length_take_le _ _
  · intro tiles pbf st now
    unfold loadTilesIntoQueueS
    rw [List.length_map]
    exact List.length_take_le _ _
  · intro st t h
    simp [inScopeS, h]
  · intro st t h
    simp [inScopeS, List.isEmpty_iff, h]

/-- Witness for the hypotheses of the C3 theorem: a stale tile at the picked
zoom 16 is selected, and its selection implies the characterization. -/
theorem loadTilesIntoQueue_scope_witness :
    ∃ t ∈ [(⟨0, 0, 16, none⟩ : TileRec)],
      (⟨⟨0, 0, 16⟩, none, none⟩ : WorkItem) = toWorkItem [] t
      ∧ isStale [] 0 defaultSettings.updateInterval t = true
      ∧ t.z = zoomPick defaultSettings :=
  loadTilesIntoQueue_scope.1 [⟨0, 0, 16, none⟩] [] defaultSettings 0
    ⟨⟨0, 0, 16⟩, none, none⟩ (by decide)

end TMS

namespace TMS

/-- Records already stored survive an insert-if-absent. -/
theorem subset_insertTile {s : List TileRec} {t u : TileRec} (h : u ∈ s) :
    u ∈ insertTile s t := by
  unfold insertTile
  split
  · exact h
  · exact List.mem_append_left _ h

/-- A record after an insert-if-absent was stored before or is the inserted
one. -/
theorem mem_insertTile {s : List TileRec} {t u : TileRec}
    (h : u ∈ insertTile s t) : u ∈ s ∨ u = t := by
  unfold insertTile at h
  split at h
  · exact Or.inl h
  · rcases List.mem_append.mp h with h1 | h1
    · exact Or.inl h1
    · exact Or.inr (List.mem_singleton.mp h1)

/-- Records already stored survive a batch insert. -/
theorem subset_insertTiles {ts : List TileRec} :
    ∀ {s : List TileRec} {u : TileRec}, u ∈ s → u ∈ insertTiles s ts := by
  induction ts with
  | nil =>
    intro s u h
    exact h
  | cons a ts ih =>
    intro s u h
    exact ih (subset_insertTile h)

/-- A record after a batch insert was stored before or belongs to the batch. -/
theorem mem_insertTiles {ts : List TileRec} :
    ∀ {s : List TileRec} {u : TileRec}, u ∈ insertTiles s ts → u ∈ s ∨ u ∈ ts := by
  induction ts with
  | nil =>
    intro s u h
    exact Or.inl h
  | cons a ts ih =>
    intro s u h
    rcases ih h with h1 | h1
    · rcases mem_insertTile h1 with h2 | h2
      · exact Or.inl h2
      · exact Or.inr (by simp [h2])
    · exact Or.inr (List.mem_cons_of_mem _ h1)

/-- A stored record's key is present. -/
theorem keyPresent_of_mem {s : List TileRec} {t : TileRec} (h : t ∈ s) :
    keyPresent s t.x t.y t.z = true := by
  unfold keyPresent
  rw [List.any_eq_true]
  exact ⟨t, h, by simp⟩

/-- Key presence is preserved by an insert-if-absent. -/
theorem keyPresent_insertTile_mono {s : List TileRec} {t : TileRec}
    {x y z : Nat} (h : keyPresent s x y z = true) :
    keyPresent (insertTile s t) x y z = true := by
  unfold keyPresent at h ⊢
  rw [List.any_eq_true] at h ⊢
  obtain ⟨r, hr, hb⟩ := h
  exact ⟨r, subset_insertTile hr, hb⟩

/-- Key presence is preserved by a batch insert. -/
theorem keyPresent_insertTiles_mono {ts : List TileRec} :
    ∀ {s : List TileRec} {x y z : Nat}, keyPresent s x y z = true →
      keyPresent (insertTiles s ts) x y z = true := by
  induction ts with
  | nil =>
    intro s x y z h
    exact h
  | cons a ts ih =>
    intro s x y z h
    exact ih (keyPresent_insertTile_mono h)

/-- After inserting a record its key is present. -/
theorem keyPresent_insertTile_self (s : List TileRec) (t : TileRec) :
    keyPresent (insertTile s t) t.x t.y t.z = true := by
  by_cases h : keyPresent s t.x t.y t.z = true
  · rw [insertTile, if_pos h]
    exact h
  · rw [insertTile, if_neg h]
    exact keyPresent_of_mem (List.mem_append_right _ (by simp))

/-- After a batch insert every batch member's key is present. -/
theorem keyPresent_insertTiles_of_mem {ts : List TileRec} :
    ∀ {s : List TileRec} {t : TileRec}, t ∈ ts →
      keyPresent (insertTiles s ts) t.x t.y t.z = true := by
  induction ts with
  | nil =>
    intro s t h
    cases h
  | cons a ts ih =>
    intro s t h
    rcases List.mem_cons.mp h with rfl | h1
    · show keyPresent (insertTiles (insertTile s t) ts) t.x t.y t.z = true
      exact keyPresent_insertTiles_mono (keyPresent_insertTile_self s t)
    · exact ih h1

/-- The ON CONFLICT DO NOTHING discipline: inserting a record whose
coordinate triple is already keyed leaves the store untouched. -/
theorem insertTile_of_present {s : List TileRec} {t : TileRec}
    (h : keyPresent s t.x t.y t.z = true) : insertTile s t = s := by
  rw [insertTile, if_pos h]

/-- A batch insert of records whose keys are all present is the identity. -/
theorem insertTiles_of_present {ts : List TileRec} :
    ∀ {s : List TileRec}, (∀ t ∈ ts, keyPresent s t.x t.y t.z = true) →
      insertTiles s ts = s := by
  induction ts with
  | nil =>
    intro s _
    rfl
  | cons a ts ih =>
    intro s h
    have ha : insertTile s a = s := insertTile_of_present (h a (by simp))
    show insertTiles (insertTile s a) ts = s
    rw [ha]
    exact ih (fun t ht => h t (List.mem_cons_of_mem _ ht))

/-- Shape of a candidate child: offsets below 2, level `z`, parent reference
to the generating record. -/
theorem mem_childrenOf {geo : Nat → Nat → Nat → Bool} {z : Nat}
    {p c : TileRec} (h : c ∈ childrenOf geo z p) :
    ∃ dx dy, dx < 2 ∧ dy < 2
      ∧ c = ⟨p.x * 2 + dx, p.y * 2 + dy, z, some (p.x, p.y, p.z)⟩
      ∧ geo (p.x * 2 + dx) (p.y * 2 + dy) z = true := by
  unfold childrenOf at h
  rcases List.mem_flatMap.mp h with ⟨dx, hdx, h⟩
  rcases List.mem_flatMap.mp h with ⟨dy, hdy, h⟩
  rw [List.mem_range] at hdx hdy
  split at h
  · rw [List.mem_singleton] at h
    exact ⟨dx, dy, hdx, hdy, h, by assumption⟩
  · cases h

/-- A candidate child sits exactly at the pass level. -/
theorem zLevel_of_mem_childrenOf {geo : Nat → Nat → Nat → Bool} {z : Nat}
    {p c : TileRec} (h : c ∈ childrenOf geo z p) : c.z = z := by
  obtain ⟨dx, dy, _, _, rfl, _⟩ := mem_childrenOf h
  rfl

/-- Decomposition of a zoom pass candidate: a child of a stored record at
`z-1`. -/
theorem mem_passCands {geo : Nat → Nat → Nat → Bool} {z : Nat}
    {s : List TileRec} {c : TileRec} (h : c ∈ passCands geo z s) :
    ∃ p ∈ s, p.z = z - 1 ∧ c ∈ childrenOf geo z p := by
  unfold passCands at h
  rcases List.mem_flatMap.mp h with ⟨p, hp, hc⟩
  have hf := List.mem_filter.mp hp
  exact ⟨p, hf.1, by simpa using hf.2, hc⟩

/-- Construction of a zoom pass candidate. -/
theorem passCands_mem_of {geo : Nat → Nat → Nat → Bool} {z : Nat}
    {s : List TileRec} {p c : TileRec} (hp : p ∈ s) (hz : p.z = z - 1)
    (hc : c ∈ childrenOf geo z p) : c ∈ passCands geo z s := by
  unfold passCands
  exact List.mem_flatMap.mpr ⟨p, List.mem_filter.mpr ⟨hp, by simp [hz]⟩, hc⟩

/-- Stored records survive a zoom pass. -/
theorem subset_zoomPass {geo : Nat → Nat → Nat → Bool} {z : Nat}
    {s : List TileRec} {u : TileRec} (h : u ∈ s) : u ∈ zoomPass geo z s :=
  subset_insertTiles h

/-- A record after a zoom pass was stored before or is a child of a stored
record at `z-1`. -/
theorem mem_zoomPass {geo : Nat → Nat → Nat → Bool} {z : Nat}
    {st : List TileRec} {u : TileRec} (h : u ∈ zoomPass geo z st) :
    u ∈ st ∨ ∃ p ∈ st, p.z = z - 1 ∧ u ∈ childrenOf geo z p := by
  rcases mem_insertTiles h with h1 | h1
  · exact Or.inl h1
  · exact Or.inr (mem_passCands h1)

/-- Key presence is preserved by a zoom pass. -/
theorem keyPresent_zoomPass_mono {geo : Nat → Nat → Nat → Bool} {z : Nat}
    {s : List TileRec} {x y w : Nat} (h : keyPresent s x y w = true) :
    keyPresent (zoomPass geo z s) x y w = true :=
  keyPresent_insertTiles_mono h

/-- Key presence is preserved by a sequence of zoom passes. -/
theorem keyPresent_foldl_zoomPass_mono {geo : Nat → Nat → Nat → Bool}
    {zs : List Nat} :
    ∀ {s : List TileRec} {x y w : Nat}, keyPresent s x y w = true →
      keyPresent (zs.foldl (fun st z => zoomPass geo z st) s) x y w = true := by
  induction zs with
  | nil =>
    intro s x y w h
    exact h
  | cons a zs ih =>
    intro s x y w h
    exact ih (keyPresent_zoomPass_mono h)

/-- A zoom pass closes its own level: afterwards every candidate child of a
stored record at `z-1` is keyed. -/
theorem levelClosed_zoomPass_self (geo : Nat → Nat → Nat → Bool) (z : Nat)
    (s : List TileRec) (hz : 1 ≤ z) : levelClosed geo z (zoomPass geo z s) := by
  intro p hp hpz c hc
  rcases mem_zoomPass hp with hps | ⟨q, _, _, hq⟩
  · exact keyPresent_insertTiles_of_mem (passCands_mem_of hps hpz hc)
  · have hlev := zLevel_of_mem_childrenOf hq
    exfalso
    omega

/-- Level closure survives a pass at any other level than `z-1` (later
passes only add records at their own level). -/
theorem levelClosed_zoomPass_preserved {geo : Nat → Nat → Nat → Bool}
    {z z' : Nat} {s : List TileRec} (h : levelClosed geo z s)
    (hne : z' ≠ z - 1) : levelClosed geo z (zoomPass geo z' s) := by
  intro p hp hpz c hc
  rcases mem_zoomPass hp with hps | ⟨q, _, _, hq⟩
  · exact keyPresent_zoomPass_mono (h p hps hpz c hc)
  · have hlev := zLevel_of_mem_childrenOf hq
    exfalso
    omega

/-- A zoom pass on a level-closed store is the identity. -/
theorem zoomPass_of_levelClosed {geo : Nat → Nat → Nat → Bool} {z : Nat}
    {s : List TileRec} (h : levelClosed geo z s) : zoomPass geo z s = s := by
  unfold zoomPass
  apply insertTiles_of_present
  intro c hc
  rcases mem_passCands hc with ⟨p, hp, hpz, hcp⟩
  exact h p hp hpz c hcp

/-- Level closure survives a run of passes at levels other than `z-1`. -/
theorem levelClosed_foldl_preserved {geo : Nat → Nat → Nat → Bool} {z : Nat} :
    ∀ {zs : List Nat}, (∀ w ∈ zs, w ≠ z - 1) →
      ∀ {s : List TileRec}, levelClosed geo z s →
        levelClosed geo z (zs.foldl (fun st w => zoomPass geo w st) s) := by
  intro zs
  induction zs with
  | nil =>
    intro _ s h
    exact h
  | cons a zs ih =>
    intro hne s h
    exact ih (fun w hw => hne w (List.mem_cons_of_mem _ hw))
      (levelClosed_zoomPass_preserved h (hne a (by simp)))

/-- After running passes for a list of positive levels with no later level
equal to an earlier level minus one, the resulting store is closed at every
level of the list. -/
theorem levelClosed_all {geo : Nat → Nat → Nat → Bool} :
    ∀ (zs : List Nat) (s₀ : List TileRec), (∀ z ∈ zs, 1 ≤ z) →
      zs.Pairwise (fun a b => b ≠ a - 1) →
      ∀ z ∈ zs, levelClosed geo z (zs.foldl (fun st w => zoomPass geo w st) s₀) := by
  intro zs
  induction zs with
  | nil =>
    intro s₀ _ _ z hz
    cases hz
  | cons a zs ih =>
    intro s₀ h1 hp z hz
    have hps := List.pairwise_cons.mp hp
    show levelClosed geo z (zs.foldl (fun st w => zoomPass geo w st) (zoomPass geo a s₀))
    rcases List.mem_cons.mp hz with rfl | hz1
    · exact levelClosed_foldl_preserved
        (fun w hw => by
          have := hps.1 w hw
          exact this)
        (levelClosed_zoomPass_self geo z s₀ (h1 z (by simp)))
    · exact ih (zoomPass geo a s₀)
        (fun w hw => h1 w (List.mem_cons_of_mem _ hw)) hps.2 z hz1

/-- A run of passes over a store closed at every involved level is the
identity. -/
theorem foldl_zoomPass_fixed {geo : Nat → Nat → Nat → Bool} :
    ∀ {zs : List Nat} {R : List TileRec},
      (∀ z ∈ zs, levelClosed geo z R) →
      zs.foldl (fun st w => zoomPass geo w st) R = R := by
  intro zs
  induction zs with
  | nil =>
    intro R _
    rfl
  | cons a zs ih =>
    intro R h
    have ha : zoomPass geo a R = R := zoomPass_of_levelClosed (h a (by simp))
    show zs.foldl (fun st w => zoomPass geo w st) (zoomPass geo a R) = R
    rw [ha]
    exact ih (fun z hz => h z (List.mem_cons_of_mem _ hz))

/-- Shape of a base-scan candidate: level `z`, null parent references. -/
theorem mem_baseCands {geo : Nat → Nat → Nat → Bool}
    {z minX maxX minY maxY : Nat} {c : TileRec}
    (h : c ∈ baseCands geo z minX maxX minY maxY) :
    c.z = z ∧ c.parent = none := by
  unfold baseCands at h
  rcases List.mem_flatMap.mp h with ⟨i, _, h⟩
  rcases List.mem_flatMap.mp h with ⟨j, _, h⟩
  split at h
  · rw [List.mem_singleton] at h
    subst h
    exact ⟨rfl, rfl⟩
  · cases h

/-- The base scan on a store already containing every base candidate is the
identity. -/
theorem basePass_of_present {geo : Nat → Nat → Nat → Bool}
    {z minX maxX minY maxY : Nat} {s : List TileRec}
    (h : ∀ c ∈ baseCands geo z minX maxX minY maxY,
      keyPresent s c.x c.y c.z = true) :
    basePass geo z minX maxX minY maxY s = s :=
  insertTiles_of_present h

/-- Every zoom level walked after the base scan exceeds the minimum zoom. -/
theorem zoomLevelsAbove_gt {minZ maxZ z : Nat}
    (h : z ∈ zoomLevelsAbove minZ maxZ) : minZ < z := by
  unfold zoomLevelsAbove at h
  rcases List.mem_map.mp h with ⟨i, _, rfl⟩
  omega

/-- The walked zoom levels are strictly increasing, so no later level equals
an earlier level minus one. -/
theorem zoomLevelsAbove_pairwise (minZ maxZ : Nat) :
    (zoomLevelsAbove minZ maxZ).Pairwise (fun a b => b ≠ a - 1) := by
  unfold zoomLevelsAbove
  exact List.Pairwise.map _ (fun a b hab => by omega) (List.pairwise_lt_range _)

/-- The base scan from an empty store satisfies the parent invariant: every
record sits at the minimum zoom with null parents. -/
theorem parentInv_basePass_empty (geo : Nat → Nat → Nat → Bool)
    (minZ minX maxX minY maxY : Nat) :
    parentInv minZ (basePass geo minZ minX maxX minY maxY []) := by
  intro r hr
  rcases mem_insertTiles hr with h | h
  · cases h
  · obtain ⟨hz, hpar⟩ := mem_baseCands h
    refine ⟨le_of_eq hz.symm, fun _ => hpar, fun hlt => ?_⟩
    exfalso
    omega

/-- A zoom pass above the minimum zoom preserves the parent invariant: every
new record is a child `(2*px+dx, 2*py+dy)` of a stored record at `z-1`,
carries the parent reference `(x/2, y/2, z-1)`, and that parent survives the
pass. -/
theorem parentInv_zoomPass {geo : Nat → Nat → Nat → Bool} {minZ z : Nat}
    {s : List TileRec} (h : parentInv minZ s) (hz : minZ < z) :
    parentInv minZ (zoomPass geo z s) := by
  intro r hr
  rcases mem_zoomPass hr with hrs | ⟨p, hps, hpz, hrc⟩
  · obtain ⟨h1, h2, h3⟩ := h r hrs
    refine ⟨h1, h2, fun hlt => ?_⟩
    obtain ⟨hpar, q, hq, hqx⟩ := h3 hlt
    exact ⟨hpar, q, subset_zoomPass hq, hqx⟩
  · obtain ⟨dx, dy, hdx, hdy, rfl, _⟩ := mem_childrenOf hrc
    have hx : (p.x * 2 + dx) / 2 = p.x := by omega
    have hy : (p.y * 2 + dy) / 2 = p.y := by omega
    refine ⟨?_, ?_, fun _ => ⟨?_, p, subset_zoomPass hps, ?_, ?_, ?_⟩⟩
    · show minZ ≤ z
      omega
    · intro hz'
      exfalso
      have hz2 : z = minZ := hz'
      omega
    · show (some (p.x, p.y, p.z) : Option (Nat × Nat × Nat))
        = some ((p.x * 2 + dx) / 2, (p.y * 2 + dy) / 2, z - 1)
      rw [hx, hy, hpz]
    · show p.x = (p.x * 2 + dx) / 2
      omega
    · show p.y = (p.y * 2 + dy) / 2
      omega
    · show p.z = z - 1
      exact hpz

/-- The parent invariant is preserved by a run of passes above the minimum
zoom. -/
theorem parentInv_foldl {geo : Nat → Nat → Nat → Bool} {minZ : Nat} :
    ∀ {zs : List Nat}, (∀ z ∈ zs, minZ < z) →
      ∀ {s : List TileRec}, parentInv minZ s →
        parentInv minZ (zs.foldl (fun st w => zoomPass geo w st) s) := by
  intro zs
  induction zs with
  | nil =>
    intro _ s h
    exact h
  | cons a zs ih =>
    intro hz s h
    exact ih (fun z hz1 => hz z (List.mem_cons_of_mem _ hz1))
      (parentInv_zoomPass h (hz a (by simp)))

/-- C7: in every store produced by the discovery engine from an empty
`tiles` table, each record above the minimum zoom carries the parent
reference `(x / 2, y / 2, z - 1)` to a record that exists in the store at
`z-1`, while every record at the minimum zoom has null parent references. -/
theorem generateTiles_parent_invariant (geo : Nat → Nat → Nat → Bool)
    (minZ maxZ minX maxX minY maxY : Nat) :
    parentInv minZ (generateTiles geo minZ maxZ minX maxX minY maxY []) := by
  unfold generateTiles
  exact parentInv_foldl (fun z hz => zoomLevelsAbove_gt hz)
    (parentInv_basePass_empty geo minZ minX maxX minY maxY)

/-- C8: running the discovery engine a second time over the store produced
by a first run with the same geometry, bounding box and zoom bounds is the
identity — duplicate coordinate triples are dropped by the insert-if-absent
discipline, the record list and hence its row count are unchanged, and
since every operation is total no error is raised. -/
theorem generateTiles_idempotent :
    (∀ (geo : Nat → Nat → Nat → Bool) (minZ maxZ minX maxX minY maxY : Nat)
        (s : List TileRec),
      generateTiles geo minZ maxZ minX maxX minY maxY
          (generateTiles geo minZ maxZ minX maxX minY maxY s)
        = generateTiles geo minZ maxZ minX maxX minY maxY s)
    ∧ (∀ (geo : Nat → Nat → Nat → Bool) (minZ maxZ minX maxX minY maxY : Nat)
        (s : List TileRec),
      (generateTiles geo minZ maxZ minX maxX minY maxY
          (generateTiles geo minZ maxZ minX maxX minY maxY s)).length
        = (generateTiles geo minZ maxZ minX maxX minY maxY s).length) := by
  have main : ∀ (geo : Nat → Nat → Nat → Bool)
      (minZ maxZ minX maxX minY maxY : Nat) (s : List TileRec),
      generateTiles geo minZ maxZ minX maxX minY maxY
          (generateTiles geo minZ maxZ minX maxX minY maxY s)
        = generateTiles geo minZ maxZ minX maxX minY maxY s := by
    intro geo minZ maxZ minX maxX minY maxY s
    have hbase : basePass geo minZ minX maxX minY maxY
        (generateTiles geo minZ maxZ minX maxX minY maxY s)
        = generateTiles geo minZ maxZ minX maxX minY maxY s := by
      apply basePass_of_present
      intro c hc
      have h1 : keyPresent (basePass geo minZ minX maxX minY maxY s)
          c.x c.y c.z = true := keyPresent_insertTiles_of_mem hc
      unfold generateTiles
      exact keyPresent_foldl_zoomPass_mono h1
    have hclosed : ∀ z ∈ zoomLevelsAbove minZ maxZ,
        levelClosed geo z (generateTiles geo minZ maxZ minX maxX minY maxY s) := by
      unfold generateTiles
      exact levelClosed_all (zoomLevelsAbove minZ maxZ)
        (basePass geo minZ minX maxX minY maxY s)
        (fun z hz => by have := zoomLevelsAbove_gt hz; omega)
        (zoomLevelsAbove_pairwise minZ maxZ)
    calc generateTiles geo minZ maxZ minX maxX minY maxY
            (generateTiles geo minZ maxZ minX maxX minY maxY s)
        = (zoomLevelsAbove minZ maxZ).foldl (fun st w => zoomPass geo w st)
            (basePass geo minZ minX maxX minY maxY
              (generateTiles geo minZ maxZ minX maxX minY maxY s)) := rfl
      _ = (zoomLevelsAbove minZ maxZ).foldl (fun st w => zoomPass geo w st)
            (generateTiles geo minZ maxZ minX maxX minY maxY s) := by rw [hbase]
      _ = generateTiles geo minZ maxZ minX maxX minY maxY s :=
            foldl_zoomPass_fixed hclosed
  exact ⟨main, fun geo minZ maxZ minX maxX minY maxY s => by
    rw [main geo minZ maxZ minX maxX minY maxY s]⟩

end TMS
